import Mathlib

/-!
Verification of the asynchronous AI task backend (`assess_project`).

This file shallowly embeds the core of the repository:

* `utils/text_processor.py` — the sanitizer `TextProcessor.deep_clean_text`
  and `TextProcessor.prepare_user_input_for_ai`, modelled character by
  character over `List Char` (Python `re` semantics for the three
  substitutions are reproduced directly: the allow-list filter, the
  blank-line collapse `\n\s*\n\s*\n+ -> \n\n`, the horizontal-whitespace
  collapse `[ \t]+ -> ' '`, and `str.strip()`).
* the JSON transport boundary: the escaping performed by Python's
  `json.dumps(..., ensure_ascii=False)` on a string value embedded in an
  object, and a parser for the resulting payload.
* `services/ai_service.py` — provider initialization, the synchronous
  `translate_text`/`summarize_text` calls with their Mock fallback, the
  streaming `translate_stream` with its mid-stream fallback, and the Mock
  adapter (`_mock_translate`, `_mock_translate_stream`).
* `routers/translation.py` — the async-task submission and the background
  `_process_translation_task` writes, plus the SSE `event_stream` wrapper.
* `services/task_service.py` — `create_task` / `get_task` / `update_task` /
  `process_translation_task`.
* `utils/redis_client.py` — the Redis wrapper with its in-process fallback
  map, including the fact that the fallback branch of `set` ignores the
  `ex` expiry argument and that the fallback branch of `get_json` returns
  the stored value unparsed.

Time is modelled by explicit numeric/string clock parameters; each call to
`datetime.now().isoformat()` in the source becomes one parameter.
-/

/-! ## Character classes

`isPythonSpace` is the exact set of code points matched by Python's `\s`
(equivalently `str.isspace()`): the 29 code points
09-0D, 1C-1F, 20, 85, A0, 1680, 2000-200A, 2028, 2029, 202F, 205F, 3000. -/

def isPythonSpace (c : Char) : Bool :=
  let n := c.toNat
  (0x09 ≤ n && n ≤ 0x0D) || (0x1C ≤ n && n ≤ 0x20) || n == 0x85 || n == 0xA0 ||
  n == 0x1680 || (0x2000 ≤ n && n ≤ 0x200A) || n == 0x2028 || n == 0x2029 ||
  n == 0x202F || n == 0x205F || n == 0x3000

/-- The allow-list of `deep_clean_text`'s first substitution
`re.sub(r'[^\x20-\x7E\s一-鿿　-〿＀-￯]', '', text)`:
a character survives iff it is printable ASCII, Python whitespace, a CJK
ideograph, CJK punctuation, or a halfwidth/fullwidth form. -/
def allowedChar (c : Char) : Bool :=
  let n := c.toNat
  (0x20 ≤ n && n ≤ 0x7E) || isPythonSpace c || (0x4E00 ≤ n && n ≤ 0x9FFF) ||
  (0x3000 ≤ n && n ≤ 0x303F) || (0xFF00 ≤ n && n ≤ 0xFFEF)

/-- The character class `[ \t]` of the horizontal-whitespace collapse. -/
def isBlankHT (c : Char) : Bool := c == ' ' || c == '\t'

/-! ## The blank-line collapse

`re.sub(r'\n\s*\n\s*\n+', '\n\n', s)`.  A match of that pattern is a
whitespace block that starts and ends with a newline and contains at least
three newlines; the leftmost-greedy match beginning at a given `\n`
extends exactly to the last `\n` of the maximal whitespace run starting
there.  `collapseBlankLines` reproduces `re.sub`'s scan: at each position,
if the current character is `\n` and the whitespace run from here contains
at least three newlines, the match (everything up to and including the
last newline of the run) is replaced by two newlines and scanning resumes
after it; otherwise the character is copied. -/

/-- Drop the trailing non-newline characters of a list (the part of a
whitespace run after its last `\n`). -/
def dropTrailingNonNl (l : List Char) : List Char :=
  (l.reverse.dropWhile (fun c => c != '\n')).reverse

/-- Length of the regex match starting at the head of `l` (only meaningful
when the head is `\n` and the run holds at least 3 newlines). -/
def blankMatchLen (l : List Char) : Nat :=
  (dropTrailingNonNl (l.takeWhile isPythonSpace)).length

def collapseBlankLines : List Char → List Char
  | [] => []
  | c :: cs =>
    if h : c = '\n' ∧ 3 ≤ ((c :: cs).takeWhile isPythonSpace).count '\n' then
      '\n' :: '\n' :: collapseBlankLines ((c :: cs).drop (blankMatchLen (c :: cs)))
    else
      c :: collapseBlankLines cs
termination_by l => l.length
decreasing_by
  · simp only [List.length_drop]
    have hk : blankMatchLen (c :: cs) ≠ 0 := by
      intro h0
      have hnil : dropTrailingNonNl ((c :: cs).takeWhile isPythonSpace) = [] :=
        List.length_eq_zero.mp h0
      have hmem : '\n' ∈ (c :: cs).takeWhile isPythonSpace := by
        have : 0 < ((c :: cs).takeWhile isPythonSpace).count '\n' := by omega
        exact List.count_pos_iff.mp this
      have hrev : ((c :: cs).takeWhile isPythonSpace).reverse.dropWhile
          (fun c => c != '\n') = [] := by
        have := congrArg List.reverse hnil
        simpa [dropTrailingNonNl] using this
      have hall := List.dropWhile_eq_nil_iff.mp hrev
      have : ('\n' : Char) ∈ ((c :: cs).takeWhile isPythonSpace).reverse :=
        List.mem_reverse.mpr hmem
      have := hall _ this
      simp at this
    simp only [List.length_cons]
    omega
  · simp only [List.length_cons]
    omega

/-- `re.sub(r'[ \t]+', ' ', s)`: each maximal run of spaces/tabs becomes a
single space. -/
def collapseSpaces : List Char → List Char
  | [] => []
  | c :: cs =>
    if isBlankHT c then
      ' ' :: collapseSpaces (cs.dropWhile isBlankHT)
    else
      c :: collapseSpaces cs
termination_by l => l.length
decreasing_by
  · have := (List.dropWhile_sublist (l := cs) (p := isBlankHT)).length_le
    simp only [List.length_cons]
    omega
  · simp only [List.length_cons]
    omega

/-- `str.strip()` from the right. -/
def rstrip (l : List Char) : List Char :=
  (l.reverse.dropWhile isPythonSpace).reverse

/-- Python `str.strip()` (no argument): remove leading and trailing
whitespace (`str.isspace()` characters). -/
def pyStrip (l : List Char) : List Char :=
  rstrip (l.dropWhile isPythonSpace)

/-- The whole pipeline of `TextProcessor.deep_clean_text` on a non-empty
string: filter by the allow-list, collapse blank lines, collapse
horizontal whitespace, strip. -/
def deepCleanList (l : List Char) : List Char :=
  pyStrip (collapseSpaces (collapseBlankLines (l.filter allowedChar)))

/-- `TextProcessor.deep_clean_text`.  `if not text: return ""` then the
three regex substitutions and the strip. -/
def deep_clean_text (s : String) : String :=
  if s.data.isEmpty then "" else String.mk (deepCleanList s.data)

/-- `TextProcessor.prepare_user_input_for_ai` for string input.  The
function runs `deep_clean_text`, then verifies `json.dumps({"text": cleaned},
ensure_ascii=False)` succeeds.  For a `dict` whose values are strings,
`json.dumps` is total and in particular never raises
`json.JSONDecodeError` (the only exception class the source catches), so
the fallback branches (`clean_user_input`, sentinel string) are
unreachable and the result is exactly the deep-cleaned text.  (For
non-string input the source returns `""`; only string inputs are
modelled.) -/
def prepare_user_input_for_ai (s : String) : String :=
  deep_clean_text s

/-- The convenience wrapper `preprocess_text` used by `AIService`. -/
def preprocess_text (s : String) : String :=
  prepare_user_input_for_ai s

/-! ## The JSON transport boundary

`json.dumps({"text": s}, ensure_ascii=False)` produces
`{"text": "<escaped s>"}` where the escaping rewrites `"` to `\"`, `\` to
`\\`, the control characters BS HT LF FF CR to `\b \t \n \f \r`, every
other code point below 0x20 to `\u00XX` (lowercase hex), and leaves all
other characters as themselves.  `parseStringBody` parses the body of a
JSON string literal (everything after the opening quote, up to and
including the closing quote), as `json.loads` does: escape sequences are
decoded, an unescaped control character is an error. -/

def lbrace : Char := Char.ofNat 123

def rbrace : Char := Char.ofNat 125

def hexDigitChar (n : Nat) : Char :=
  Char.ofNat (if n < 10 then 48 + n else 87 + n)

def jsonEscapeChar (c : Char) : List Char :=
  if c = '"' then ['\\', '"']
  else if c = '\\' then ['\\', '\\']
  else if c = '\n' then ['\\', 'n']
  else if c = '\r' then ['\\', 'r']
  else if c = '\t' then ['\\', 't']
  else if c = Char.ofNat 8 then ['\\', 'b']
  else if c = Char.ofNat 12 then ['\\', 'f']
  else if c.toNat < 32 then
    ['\\', 'u', '0', '0', hexDigitChar (c.toNat / 16), hexDigitChar (c.toNat % 16)]
  else [c]

def jsonEscapeList (l : List Char) : List Char :=
  (l.map jsonEscapeChar).flatten

/-- Value of a hex digit, as accepted by `json.loads` in `\uXXXX`. -/
def hexVal (c : Char) : Option Nat :=
  if '0' ≤ c ∧ c ≤ '9' then some (c.toNat - 48)
  else if 'a' ≤ c ∧ c ≤ 'f' then some (c.toNat - 87)
  else if 'A' ≤ c ∧ c ≤ 'F' then some (c.toNat - 55)
  else none

/-- Prepend a decoded character to a string-body parse result. -/
def consParse (c : Char) (o : Option (List Char × List Char)) :
    Option (List Char × List Char) :=
  o.map (fun p => (c :: p.1, p.2))

/-- Parse the body of a JSON string literal: returns the decoded content
and the input remaining after the closing quote. -/
def parseStringBody : List Char → Option (List Char × List Char)
  | [] => none
  | c :: cs =>
    if c = '"' then some ([], cs)
    else if c = '\\' then
      match cs with
      | [] => none
      | e :: cs2 =>
        if e = '"' then consParse '"' (parseStringBody cs2)
        else if e = '\\' then consParse '\\' (parseStringBody cs2)
        else if e = '/' then consParse '/' (parseStringBody cs2)
        else if e = 'n' then consParse '\n' (parseStringBody cs2)
        else if e = 'r' then consParse '\r' (parseStringBody cs2)
        else if e = 't' then consParse '\t' (parseStringBody cs2)
        else if e = 'b' then consParse (Char.ofNat 8) (parseStringBody cs2)
        else if e = 'f' then consParse (Char.ofNat 12) (parseStringBody cs2)
        else if e = 'u' then
          match cs2 with
          | h1 :: h2 :: h3 :: h4 :: cs3 =>
            match hexVal h1, hexVal h2, hexVal h3, hexVal h4 with
            | some a, some b, some d, some e4 =>
              let v := a * 4096 + b * 256 + d * 16 + e4
              if v < 0xD800 then consParse (Char.ofNat v) (parseStringBody cs3)
              else none
            | _, _, _, _ => none
          | _ => none
        else none
    else if c.toNat < 32 then none
    else consParse c (parseStringBody cs)

/-- The serialized form of `json.dumps({"text": s}, ensure_ascii=False)`
as a character list. -/
def dumpsTextPayload (s : String) : List Char :=
  lbrace :: '"' :: 't' :: 'e' :: 'x' :: 't' :: '"' :: ':' :: ' ' :: '"' ::
    (jsonEscapeList s.data ++ '"' :: [rbrace])

/-- Re-parse a `{"text": ...}` payload, recovering the string field. -/
def parseTextPayload (l : List Char) : Option String :=
  match l with
  | b :: q1 :: t1 :: t2 :: t3 :: t4 :: q2 :: co :: sp :: q3 :: rest =>
    if b = lbrace ∧ q1 = '"' ∧ t1 = 't' ∧ t2 = 'e' ∧ t3 = 'x' ∧ t4 = 't' ∧
        q2 = '"' ∧ co = ':' ∧ sp = ' ' ∧ q3 = '"' then
      match parseStringBody rest with
      | some (content, [r]) => if r = rbrace then some (String.mk content) else none
      | _ => none
    else none
  | _ => none

/-! ## Task data model (`schemas/responses.py`)

`TaskResult` with its six fields.  `status` is a plain `str` in the
source; every record the system writes carries one of the four lifecycle
values, modelled as an enumeration. -/

inductive TaskStatus
  | pending
  | processing
  | completed
  | failed
deriving DecidableEq

def statusStr : TaskStatus → String
  | .pending => "pending"
  | .processing => "processing"
  | .completed => "completed"
  | .failed => "failed"

def statusOfStr (s : String) : Option TaskStatus :=
  if s = "pending" then some .pending
  else if s = "processing" then some .processing
  else if s = "completed" then some .completed
  else if s = "failed" then some .failed
  else none

structure TaskResult where
  task_id : String
  status : TaskStatus
  result : Option String
  error : Option String
  created_at : String
  completed_at : Option String
deriving DecidableEq

/-! ### `TaskResult.model_dump_json()`

pydantic v2 serializes in field declaration order with compact
separators; optional string fields are `null` or a JSON string. -/

def jsonStrLit (s : String) : List Char :=
  '"' :: (jsonEscapeList s.data ++ ['"'])

def jsonOptStrLit : Option String → List Char
  | none => ['n', 'u', 'l', 'l']
  | some s => jsonStrLit s

def keyChars (k : String) : List Char :=
  jsonStrLit k ++ [':']

def encodeTaskResult (r : TaskResult) : String :=
  String.mk (lbrace ::
    (keyChars ("task_id") ++ jsonStrLit r.task_id ++
     ',' :: keyChars ("status") ++ jsonStrLit (statusStr r.status) ++
     ',' :: keyChars ("result") ++ jsonOptStrLit r.result ++
     ',' :: keyChars ("error") ++ jsonOptStrLit r.error ++
     ',' :: keyChars ("created_at") ++ jsonStrLit r.created_at ++
     ',' :: keyChars ("completed_at") ++ jsonOptStrLit r.completed_at ++
     [rbrace]))

/-- Consume an exact literal prefix. -/
def expectChars : List Char → List Char → Option (List Char)
  | [], l => some l
  | _ :: _, [] => none
  | c :: cs, d :: ds => if c = d then expectChars cs ds else none

/-- Parse a JSON string literal (opening quote included). -/
def parseJsonStr (l : List Char) : Option (String × List Char) :=
  match l with
  | [] => none
  | c :: rest =>
    if c = '"' then (parseStringBody rest).map (fun p => (String.mk p.1, p.2))
    else none

/-- Parse `null` or a JSON string literal. -/
def parseJsonOptStr (l : List Char) : Option (Option String × List Char) :=
  match l with
  | 'n' :: 'u' :: 'l' :: 'l' :: rest => some (none, rest)
  | _ => (parseJsonStr l).map (fun p => (some p.1, p.2))

/-- `json.loads` followed by `TaskResult(**data)` on the serialized form
written by the routers (`model_dump_json`).  Returns `none` where
`json.loads` would raise (the caller catches and degrades). -/
def decodeTaskResult (l : List Char) : Option TaskResult :=
  (expectChars (lbrace :: keyChars ("task_id")) l).bind fun l1 =>
  (parseJsonStr l1).bind fun p1 =>
  (expectChars (',' :: keyChars ("status")) p1.2).bind fun l2 =>
  (parseJsonStr l2).bind fun p2 =>
  (statusOfStr p2.1).bind fun st =>
  (expectChars (',' :: keyChars ("result")) p2.2).bind fun l3 =>
  (parseJsonOptStr l3).bind fun p3 =>
  (expectChars (',' :: keyChars ("error")) p3.2).bind fun l4 =>
  (parseJsonOptStr l4).bind fun p4 =>
  (expectChars (',' :: keyChars ("created_at")) p4.2).bind fun l5 =>
  (parseJsonStr l5).bind fun p5 =>
  (expectChars (',' :: keyChars ("completed_at")) p5.2).bind fun l6 =>
  (parseJsonOptStr l6).bind fun p6 =>
  match p6.2 with
  | [r] => if r = rbrace then
             some ⟨p1.1, st, p3.1, p4.1, p5.1, p6.1⟩
           else none
  | _ => none

/-! ## The key-value store (`utils/redis_client.py`)

The client holds either a live Redis connection (`connected = true`,
entries carry the value string and an optional absolute expiry deadline)
or the in-process fallback dict `_memory_storage` (`connected = false`).
The fallback dict holds whatever Python value the writer passed:
the async `set` stores the raw string, `set_json` stores the dict.
`PyVal` distinguishes the two.  Time is an explicit `Nat` parameter.

Faithful quirks kept from the source:
* the fallback branch of `set`/`set_json` ignores the `ex` argument, so
  fallback entries never expire;
* the fallback branch of `get_json` returns the stored value as-is,
  without `json.loads`. -/

inductive PyVal
  | str (s : String)
  | obj (r : TaskResult)
deriving DecidableEq

structure RedisModel where
  connected : Bool
  ext : String → Option (String × Option Nat)
  mem : String → Option PyVal

def emptyRedis (connected : Bool) : RedisModel :=
  ⟨connected, fun _ => none, fun _ => none⟩

/-- `RedisClient.set` (the async variant used by the routers). -/
def redisSet (m : RedisModel) (key value : String) (ex : Option Nat) (now : Nat) :
    RedisModel :=
  if m.connected then
    { m with ext := fun k => if k = key then some (value, ex.map (fun e => now + e)) else m.ext k }
  else
    { m with mem := fun k => if k = key then some (PyVal.str value) else m.mem k }

/-- `RedisClient.set_json`.  In external mode the dict is serialized with
`json.dumps`; in fallback mode the dict itself is stored. -/
def redisSetJson (m : RedisModel) (key : String) (r : TaskResult) (ex : Option Nat)
    (now : Nat) : RedisModel :=
  if m.connected then
    { m with ext := fun k => if k = key then some (encodeTaskResult r, ex.map (fun e => now + e)) else m.ext k }
  else
    { m with mem := fun k => if k = key then some (PyVal.obj r) else m.mem k }

/-- Lookup in the external store, honouring expiry: Redis withholds a key
whose deadline has passed. -/
def extLookup (m : RedisModel) (key : String) (now : Nat) : Option String :=
  match m.ext key with
  | none => none
  | some (v, none) => some v
  | some (v, some dl) => if now < dl then some v else none

/-- `RedisClient.get_json`: in external mode, `get` then `json.loads`
(a parse failure is caught and becomes `None`); in fallback mode, the
stored value as-is. -/
def redisGetJson (m : RedisModel) (key : String) (now : Nat) : Option PyVal :=
  if m.connected then
    match extLookup m key now with
    | none => none
    | some s => (decodeTaskResult s.data).map PyVal.obj
  else
    m.mem key

/-! ## Task service (`services/task_service.py`) -/

def TASK_EXPIRE_SECONDS : Nat := 3600

def taskKey (tid : String) : String := "ai_task:" ++ tid

/-- `TaskService.create_task`. -/
def create_task (m : RedisModel) (tid : String) (r : TaskResult) (now : Nat) :
    RedisModel :=
  redisSetJson m (taskKey tid) r (some TASK_EXPIRE_SECONDS) now

/-- `TaskService.get_task`: `get_json` then `TaskResult(**task_data)`.
When the fallback map holds a raw string (it does for records written by
the routers' `redis_client.set`), the `**` unpacking raises `TypeError`;
the `Except.error` carries that exception. -/
def get_task (m : RedisModel) (tid : String) (now : Nat) :
    Except String (Option TaskResult) :=
  match redisGetJson m (taskKey tid) now with
  | none => .ok none
  | some (.obj r) => .ok (some r)
  | some (.str _) =>
      .error ("TypeError: argument after ** must be a mapping, not str")

/-- `TaskService.update_task`: read-modify-write; a missing task is a
silent no-op. -/
def update_task (m : RedisModel) (tid : String) (upd : TaskResult → TaskResult)
    (now : Nat) : Except String RedisModel :=
  match get_task m tid now with
  | .error e => .error e
  | .ok none => .ok m
  | .ok (some t) => .ok (create_task m tid (upd t) now)

/-- The `status="processing"` update of
`TaskService.process_translation_task`. -/
def procUpd (t : TaskResult) : TaskResult :=
  { t with status := .processing }

/-- The completion update: `status="completed"`, `result`,
`completed_at`. -/
def complUpd (r isoNow : String) (t : TaskResult) : TaskResult :=
  { t with status := .completed, result := some r, completed_at := some isoNow }

/-- The failure update: `status="failed"`, `error` — and nothing else:
this path sets no `completed_at`. -/
def failUpd (e : String) (t : TaskResult) : TaskResult :=
  { t with status := .failed, error := some e }

/-- `TaskService.process_translation_task`.  The body is a `try` around
(processing update; AI call; completion update) with an `except` that
issues the failure update; an exception raised inside the `except`'s own
`update_task` propagates and nothing further is written.  `aiOutcome` is
the observable behaviour of `await self.ai_service.call_ai_model(...)` —
in the source that attribute does not exist on `AIService`, so a real run
always takes the `.error` branch with an `AttributeError`. -/
def process_translation_task_service (m0 : RedisModel) (tid : String)
    (aiOutcome : Except String String) (tP tC tF : Nat) (isoC : String) :
    RedisModel :=
  match update_task m0 tid procUpd tP with
  | .error e =>
    match update_task m0 tid (failUpd e) tF with
    | .ok m' => m'
    | .error _ => m0
  | .ok m1 =>
    match aiOutcome with
    | .error e =>
      match update_task m1 tid (failUpd e) tF with
      | .ok m' => m'
      | .error _ => m1
    | .ok r =>
      match update_task m1 tid (complUpd r isoC) tC with
      | .ok m2 => m2
      | .error e =>
        match update_task m1 tid (failUpd e) tF with
        | .ok m' => m'
        | .error _ => m1

/-! ## Provider adapters (`services/ai_providers.py`) -/

/-- Python truthiness of an optional string config entry. -/
def pyTruthyStr : Option String → Bool
  | none => false
  | some s => !s.isEmpty

structure OpenAIProviderState where
  api_key : String
  base_url : String
  modelName : String
deriving DecidableEq

/-- `OpenAIProvider.__init__`: `if not config.OPENAI_API_KEY: raise
ValueError(...)`, otherwise the client is built from the key, base url
and model name.  (`ClaudeProvider.__init__` and `QianwenProvider.__init__`
follow the identical credential-check shape.) -/
def OpenAIProvider_init (key : Option String) (baseUrl mdl : String) :
    Except String OpenAIProviderState :=
  if pyTruthyStr key then .ok ⟨key.getD "", baseUrl, mdl⟩
  else .error ("OPENAI_API_KEY环境变量未设置")

/-- `AIService._initialize_provider`: `create_provider` in a `try`; on any
exception the service continues with `self.provider = None`. -/
def initialize_provider (construction : Except String OpenAIProviderState) :
    Option OpenAIProviderState :=
  construction.toOption

/-! ## The Mock adapter (`AIService._mock_translate`,
`_mock_summarize`, `_mock_translate_stream`) -/

def mock_translate (text source_lang target_lang : String) : String :=
  if source_lang = "中文" ∧ target_lang = "英文" then "[模拟EN] " ++ text
  else if source_lang = "英文" ∧ target_lang = "中文" then "[模拟中文] " ++ text
  else "[模拟" ++ target_lang ++ "] " ++ text

def mock_summarize (text : String) : String :=
  "模拟总结: " ++ String.mk (text.data.take 50) ++
    (if 50 < text.data.length then "..." else "")

/-- Python `str.split()` with no argument: maximal runs of non-whitespace
characters, empty strings never produced. -/
def pySplitWs : List Char → List (List Char)
  | [] => []
  | c :: cs =>
    if isPythonSpace c then pySplitWs cs
    else ((c :: cs).takeWhile (fun d => !isPythonSpace d)) ::
      pySplitWs ((c :: cs).dropWhile (fun d => !isPythonSpace d))
termination_by l => l.length
decreasing_by
  · simp only [List.length_cons]
    omega
  · have h1 : (c :: cs).dropWhile (fun d => !isPythonSpace d) =
        cs.dropWhile (fun d => !isPythonSpace d) := by
      simp_all [List.dropWhile_cons]
    have := (List.dropWhile_sublist (l := cs)
      (p := fun d => !isPythonSpace d)).length_le
    simp only [h1, List.length_cons]
    omega

/-- `_mock_translate_stream`: `result.split()` then each word is yielded
with a trailing space (delays are not modelled). -/
def mock_translate_stream (text source_lang target_lang : String) : List String :=
  (pySplitWs (mock_translate text source_lang target_lang).data).map
    (fun w => String.mk w ++ " ")

/-! ## AI service entry points (`services/ai_service.py`)

The observable behaviour of one outbound provider call is a parameter:
`ProviderCall.succeeds r` (the adapter returned `r`) or
`ProviderCall.raises e` (the adapter call raised). -/

inductive ProviderCall
  | succeeds (r : String)
  | raises (e : String)

/-- `AIService.translate_text`: preprocess, then Mock when no provider is
initialized, the provider's answer when the call succeeds, and the Mock
answer when the call raises.  Total: it never propagates an exception. -/
def translate_text (provider : Option OpenAIProviderState) (call : ProviderCall)
    (text source_lang target_lang : String) : String :=
  let cleaned := preprocess_text text
  match provider with
  | none => mock_translate cleaned source_lang target_lang
  | some _ =>
    match call with
    | .succeeds r => r
    | .raises _ => mock_translate cleaned source_lang target_lang

/-- `AIService.summarize_text`, same fallback shape. -/
def summarize_text (provider : Option OpenAIProviderState) (call : ProviderCall)
    (text : String) : String :=
  let cleaned := preprocess_text text
  match provider with
  | none => mock_summarize cleaned
  | some _ =>
    match call with
    | .succeeds r => r
    | .raises _ => mock_summarize cleaned

/-- Observable behaviour of one provider streaming call: either the full
chunk sequence, or the chunks emitted before the stream raised together
with the exception text (an up-front failure is `midFail [] e`). -/
inductive StreamBehavior
  | success (chunks : List String)
  | midFail (pre : List String) (e : String)

/-- `AIService.translate_stream`.  The `async for` inside the `try` has
already yielded the pre-failure chunks to the caller when the provider
raises; the `except` then yields the entire Mock stream after them. -/
def translate_stream (provider : Option OpenAIProviderState)
    (beh : StreamBehavior) (text source_lang target_lang : String) : List String :=
  let cleaned := preprocess_text text
  match provider with
  | none => mock_translate_stream cleaned source_lang target_lang
  | some _ =>
    match beh with
    | .success chunks => chunks
    | .midFail pre _ => pre ++ mock_translate_stream cleaned source_lang target_lang

/-! ## The SSE wrapper (`routers/translation.py`, `event_stream`) -/

inductive SSEEvent
  | start
  | chunk (content : String)
  | done (full_result : String)
  | errorEvent (msg : String)
deriving DecidableEq

def SSEEvent.isErrorEvent : SSEEvent → Bool
  | .errorEvent _ => true
  | _ => false

/-- `if chunk and chunk.strip():` — the guard on forwarding a chunk. -/
def chunkNonEmpty (s : String) : Bool :=
  !(pyStrip s.data).isEmpty

/-- `chunk.strip().replace('\n', ' ').replace('\r', ' ').replace('\t', ' ')`. -/
def cleanChunkText (s : String) : String :=
  String.mk ((pyStrip s.data).map
    (fun c => if c = '\n' ∨ c = '\r' ∨ c = '\t' then ' ' else c))

/-- `full_result`: the concatenation of the stripped forwarded chunks. -/
def full_result_of (chunks : List String) : String :=
  String.join ((chunks.filter chunkNonEmpty).map (fun c => String.mk (pyStrip c.data)))

/-- `event_stream`: a `start` event, one `chunk` event per non-empty
chunk, then a `done` event carrying `full_result`.  The `errorEvent`
constructor models the `except` branch, which fires only if iterating the
service generator itself raises — `translate_stream` above is total, so a
provider failure never reaches it. -/
def event_stream (chunks : List String) : List SSEEvent :=
  .start :: ((chunks.filter chunkNonEmpty).map (fun c => .chunk (cleanChunkText c)) ++
    [.done (full_result_of chunks)])

/-! ## The async task router (`routers/translation.py`) -/

/-- The record written by `translate_async`: a fresh `TaskResult` with
`status="pending"` and `created_at = datetime.now().isoformat()`. -/
def pendingRecord (tid t0 : String) : TaskResult :=
  ⟨tid, .pending, none, none, t0, none⟩

/-- The record written at the start of `_process_translation_task`: a
fresh `TaskResult` with `status="processing"` and a fresh `created_at`. -/
def processingRecord (tid t1 : String) : TaskResult :=
  ⟨tid, .processing, none, none, t1, none⟩

/-- The completion record: fresh `created_at` and `completed_at` from two
separate `datetime.now()` calls. -/
def completedRecord (tid res t2 t2b : String) : TaskResult :=
  ⟨tid, .completed, some res, none, t2, some t2b⟩

/-- The failure record: `error=str(e)`, fresh `created_at` and
`completed_at`. -/
def failedRecord (tid err t3 t3b : String) : TaskResult :=
  ⟨tid, .failed, none, some err, t3, some t3b⟩

/-- The sequence of store writes performed by
`_process_translation_task`: the processing record, then the completion
record on success of `ai_service.translate_text` or the failure record if
it raised.  (`redis_client.set` itself swallows store exceptions, so the
two writes are the only fallible-free effects; the translate call is the
only exception source, and each write passes `ex=3600`.) -/
def process_translation_task_writes (tid : String)
    (outcome : Except String String) (t1 t2 t2b t3 t3b : String) :
    List TaskResult :=
  match outcome with
  | .ok r => [processingRecord tid t1, completedRecord tid r t2 t2b]
  | .error e => [processingRecord tid t1, failedRecord tid e t3 t3b]

/-- The full write trace of one submitted task: `translate_async` writes
the pending record (before the background task can run), then the
background writes follow. -/
def translate_async_trace (tid t0 : String) (outcome : Except String String)
    (t1 t2 t2b t3 t3b : String) : List TaskResult :=
  pendingRecord tid t0 :: process_translation_task_writes tid outcome t1 t2 t2b t3 t3b

/-- Apply a sequence of task-record writes to a id-keyed view of the
store (each write overwrites the record under its `task_id`). -/
def applyWrites (st : String → Option TaskResult) (ws : List TaskResult) :
    String → Option TaskResult :=
  ws.foldl (fun acc r => fun k => if k = r.task_id then some r else acc k) st

/-- The task-lifecycle state machine of the specification:
`pending → processing → (completed | failed)`. -/
def statusStep (a b : TaskStatus) : Prop :=
  (a = .pending ∧ b = .processing) ∨
  (a = .processing ∧ (b = .completed ∨ b = .failed))

/-- The record-field invariant claimed for every persisted record:
`result`/`error`/`completed_at` are gated by `status`. -/
def recordFieldInvariant (r : TaskResult) : Bool :=
  match r.status with
  | .pending => r.result = none ∧ r.error = none ∧ r.completed_at = none
  | .processing => r.result = none ∧ r.error = none ∧ r.completed_at = none
  | .completed => r.result.isSome ∧ r.error = none ∧ r.completed_at.isSome
  | .failed => r.error.isSome ∧ r.result = none ∧ r.completed_at.isSome

/-- `translate_async` as a store operation: the submit write that makes
the pending record retrievable (`redis_client.set` of
`model_dump_json`, `ex=3600`). -/
def translate_async_submit (m : RedisModel) (tid t0 : String) (now : Nat) :
    RedisModel :=
  redisSet m (taskKey tid) (encodeTaskResult (pendingRecord tid t0)) (some 3600) now

/-! ## The poll endpoint (`routers/tasks.py`) -/

inductive PollResponse
  | ok (r : TaskResult)
  | notFound
  | crash (msg : String)
deriving DecidableEq

/-- `get_task_result`: 404 when `get_task` returns `None`, the record
data when it returns one, and an unhandled exception (HTTP 500) when
`get_task` raises. -/
def get_task_result (m : RedisModel) (tid : String) (now : Nat) : PollResponse :=
  match get_task m tid now with
  | .error e => .crash e
  | .ok none => .notFound
  | .ok (some r) => .ok r

/-! ## Invariants of sanitized text

These predicates characterize the output of `deepCleanList`; together
they make a second pass of the pipeline the identity. -/

/-- Every whitespace run (viewed from any suffix) holds at most two
newlines: the blank-line pattern `\n\s*\n\s*\n+` has no match. -/
def GoodNl (l : List Char) : Prop :=
  ∀ t, t <:+ l → (t.takeWhile isPythonSpace).count '\n' ≤ 2

/-- No occurrence of two adjacent spaces. -/
def NoTwoSpaces (l : List Char) : Prop :=
  ∀ t, t <:+ l → ¬ ([' ', ' '] <+: t)

/-- No tab characters. -/
def NoTab (l : List Char) : Prop :=
  ∀ c ∈ l, c ≠ '\t'

/-- Every character is on the allow-list. -/
def AllAllowed (l : List Char) : Prop :=
  ∀ c ∈ l, allowedChar c = true

/-! # Theorems -/

/-! ## C8 — determinism of the Mock adapter -/

/-- C8: the Mock adapter is deterministic: `translate("你好", "中文",
"英文")` returns `"[模拟EN] 你好"`, which contains the input `"你好"` and
the fixed marker tag `"[模拟EN]"`; the streamed variant emits the
word-sized fragments `["[模拟EN] ", "你好 "]` in order, and stripping the
inserted separator spaces from their concatenation recovers exactly the
non-streamed result. -/
theorem mock_adapter_deterministic :
    mock_translate ("你好") ("中文") ("英文") = "[模拟EN] 你好" ∧
    ("你好").data <:+: ("[模拟EN] 你好").data ∧
    ("[模拟EN]").data <+: ("[模拟EN] 你好").data ∧
    mock_translate_stream ("你好") ("中文") ("英文") = ["[模拟EN] ", "你好 "] ∧
    String.mk (pyStrip (String.join (mock_translate_stream ("你好") ("中文") ("英文"))).data) =
      mock_translate ("你好") ("中文") ("英文") := by
  refine ⟨by simp +decide [mock_translate], by decide, by decide, ?_, ?_⟩
  · simp +decide [mock_translate_stream, mock_translate, pySplitWs]
  · simp +decide [mock_translate_stream, mock_translate, pySplitWs, pyStrip, rstrip]

/-! ## C5 — missing credential and Mock substitution -/

/-- C5: with a missing or empty credential (`pyTruthyStr key = false`),
adapter construction fails with the missing-credential `ValueError`; the
service then runs with no provider and every synchronous call returns the
Mock result and never raises; the same Mock substitution happens when a
constructed adapter's call raises at runtime. -/
theorem missing_credential_mock_fallback
    (key : Option String) (hkey : pyTruthyStr key = false)
    (baseUrl mdl text src tgt sumText e1 e2 : String)
    (p : OpenAIProviderState) :
    OpenAIProvider_init key baseUrl mdl = .error ("OPENAI_API_KEY环境变量未设置") ∧
    (∀ call, translate_text (initialize_provider (OpenAIProvider_init key baseUrl mdl))
        call text src tgt = mock_translate (preprocess_text text) src tgt) ∧
    (∀ call, summarize_text (initialize_provider (OpenAIProvider_init key baseUrl mdl))
        call sumText = mock_summarize (preprocess_text sumText)) ∧
    translate_text (some p) (.raises e1) text src tgt =
      mock_translate (preprocess_text text) src tgt ∧
    summarize_text (some p) (.raises e2) sumText =
      mock_summarize (preprocess_text sumText) := by
  have hinit : OpenAIProvider_init key baseUrl mdl =
      .error ("OPENAI_API_KEY环境变量未设置") := by
    simp [OpenAIProvider_init, hkey]
  refine ⟨hinit, ?_, ?_, rfl, rfl⟩
  · intro call
    simp [hinit, initialize_provider, translate_text, Except.toOption]
  · intro call
    simp [hinit, initialize_provider, summarize_text, Except.toOption]

/-- C5 witness: the theorem applied at `key = none` with concrete inputs. -/
theorem missing_credential_mock_fallback_witness :
    OpenAIProvider_init none ("https://api.openai.com/v1") ("gpt-3.5-turbo") =
      .error ("OPENAI_API_KEY环境变量未设置") ∧
    translate_text (some ⟨("k"), ("u"), ("m")⟩) (.raises ("timeout")) ("你好") ("中文") ("英文") =
      mock_translate (preprocess_text ("你好")) ("中文") ("英文") :=
  ⟨(missing_credential_mock_fallback none rfl ("https://api.openai.com/v1")
      ("gpt-3.5-turbo") ("你好") ("中文") ("英文") ("s") ("e1") ("e2") ⟨("k"), ("u"), ("m")⟩).1,
   (missing_credential_mock_fallback none rfl ("https://api.openai.com/v1")
      ("gpt-3.5-turbo") ("你好") ("中文") ("英文") ("s") ("e1") ("e2") ⟨("k"), ("u"), ("m")⟩).2.2.2.1⟩

/-! ## C2 — task lifecycle state machine -/

/-- C2: for every submitted task, the pending record is written (and
retrievable under its id) before execution begins, and the status
sequence of all writes for the id is exactly
`pending, processing, completed` or `pending, processing, failed`:
every consecutive pair is a legal state-machine step, no write skips
`processing`, and no write follows a terminal status. -/
theorem task_state_machine (tid t0 : String) (outcome : Except String String)
    (t1 t2 t2b t3 t3b : String) :
    ((translate_async_trace tid t0 outcome t1 t2 t2b t3 t3b).map TaskResult.status =
        [.pending, .processing, .completed] ∨
      (translate_async_trace tid t0 outcome t1 t2 t2b t3 t3b).map TaskResult.status =
        [.pending, .processing, .failed]) ∧
    List.Chain' statusStep
      ((translate_async_trace tid t0 outcome t1 t2 t2b t3 t3b).map TaskResult.status) ∧
    applyWrites (fun _ => none)
      ((translate_async_trace tid t0 outcome t1 t2 t2b t3 t3b).take 1) tid =
      some (pendingRecord tid t0) ∧
    (pendingRecord tid t0).status = .pending := by
  cases outcome <;>
    simp [translate_async_trace, process_translation_task_writes, applyWrites,
      statusStep, pendingRecord, processingRecord, completedRecord, failedRecord]

/-! ## C10 — which fields change across transitions -/

/-- C10 counterexample: the background task builds a brand-new record at
each transition with `created_at = datetime.now().isoformat()` evaluated
at that moment, so the processing write carries `created_at`
`"2024-01-01T00:00:05"` while the submission wrote
`"2024-01-01T00:00:00"` — the claim that `created_at` is unchanged from
submission is false. -/
theorem created_at_rewritten_counterexample :
    (translate_async_trace ("t1") ("2024-01-01T00:00:00") (.ok ("r"))
        ("2024-01-01T00:00:05") ("2024-01-01T00:00:09") ("2024-01-01T00:00:09")
        ("x") ("x")).map TaskResult.created_at =
      ["2024-01-01T00:00:00", "2024-01-01T00:00:05", "2024-01-01T00:00:09"] ∧
    ("2024-01-01T00:00:05" : String) ≠ "2024-01-01T00:00:00" := by
  constructor
  · simp [translate_async_trace, process_translation_task_writes,
      pendingRecord, processingRecord, completedRecord]
  · decide

/-- C10 amended: every transition write keeps the submitted `task_id`
(the id is immutable), but in the router path `created_at` is re-set to
the transition time; only the `TaskService.update_task` path
(`procUpd`/`complUpd`/`failUpd`) mutates the stored record in place and
so preserves both `task_id` and `created_at`. -/
theorem task_id_immutable_created_at_rewritten (tid t0 : String)
    (outcome : Except String String) (t1 t2 t2b t3 t3b : String) :
    (∀ r ∈ translate_async_trace tid t0 outcome t1 t2 t2b t3 t3b,
      r.task_id = tid) ∧
    (∀ t : TaskResult, (procUpd t).task_id = t.task_id ∧
      (procUpd t).created_at = t.created_at) ∧
    (∀ (res iso : String) (t : TaskResult), (complUpd res iso t).task_id = t.task_id ∧
      (complUpd res iso t).created_at = t.created_at) ∧
    (∀ (e : String) (t : TaskResult), (failUpd e t).task_id = t.task_id ∧
      (failUpd e t).created_at = t.created_at) := by
  refine ⟨?_, fun t => ⟨rfl, rfl⟩, fun res iso t => ⟨rfl, rfl⟩, fun e t => ⟨rfl, rfl⟩⟩
  cases outcome <;>
    simp [translate_async_trace, process_translation_task_writes,
      pendingRecord, processingRecord, completedRecord, failedRecord]

/-- C10 amended witness: the amended theorem applied at a concrete trace
element and a concrete stored record. -/
theorem task_id_immutable_witness :
    (processingRecord ("t1") ("b")).task_id = "t1" ∧
    (procUpd ⟨("t1"), .pending, none, none, ("a"), none⟩).created_at = "a" :=
  ⟨(task_id_immutable_created_at_rewritten ("t1") ("a") (.error ("E")) ("b") ("c")
      ("c") ("d") ("d")).1 (processingRecord ("t1") ("b")) (by decide),
   ((task_id_immutable_created_at_rewritten ("t1") ("a") (.error ("E")) ("b") ("c")
      ("c") ("d") ("d")).2.1 ⟨("t1"), .pending, none, none, ("a"), none⟩).2⟩

/-! ## C9 — TTL and expiry, external store vs fallback -/

/-- C9 counterexample: a record written with `ex=3600` at time 0 is still
returned by a read at time 7200 when the store has degraded to the
in-process fallback map (the fallback branch of `set` discards `ex`),
while the same sequence against the external store returns absent — the
claim that fallback entries expire like external ones is false. -/
theorem fallback_ttl_ignored_counterexample :
    redisGetJson (redisSet (emptyRedis false) ("ai_task:t1") ("v") (some 3600) 0)
      ("ai_task:t1") 7200 = some (PyVal.str ("v")) ∧
    redisGetJson (redisSet (emptyRedis true) ("ai_task:t1") ("v") (some 3600) 0)
      ("ai_task:t1") 7200 = none := by
  constructor <;> decide

/-- C9 amended: every task write passes the configured TTL (3600 s), and
in external-store mode the entry carries the absolute deadline `now + ex`
and reads at or past the deadline return absent; in fallback mode the
`ex` argument is ignored and the entry is returned at every later time —
fallback entries never expire. -/
theorem ttl_only_in_external_mode (m : RedisModel) (k v : String)
    (e now t : Nat) :
    (m.connected = false →
      redisGetJson (redisSet m k v (some e) now) k t = some (PyVal.str v)) ∧
    (m.connected = true →
      (redisSet m k v (some e) now).ext k = some (v, some (now + e))) ∧
    (m.connected = true → now + e ≤ t →
      extLookup (redisSet m k v (some e) now) k t = none) := by
  refine ⟨fun hc => ?_, fun hc => ?_, fun hc ht => ?_⟩
  · simp [redisGetJson, redisSet, hc]
  · simp [redisSet, hc]
  · simp [extLookup, redisSet, hc]
    omega

/-- C9 amended witness: the fallback branch applied at a concrete store,
key and read time far past the TTL. -/
theorem ttl_only_in_external_mode_witness :
    redisGetJson (redisSet (emptyRedis false) ("ai_task:w") ("rec") (some 3600) 0)
      ("ai_task:w") 999999 = some (PyVal.str ("rec")) :=
  (ttl_only_in_external_mode (emptyRedis false) ("ai_task:w") ("rec") 3600 0 999999).1 rfl

/-! ## C3 — mid-stream provider failure -/

/-- Helper: every event the SSE wrapper emits is `start`, `chunk` or
`done`; the `errorEvent` branch fires only if the service generator
itself raises, which `translate_stream` (total) never does. -/
theorem event_stream_no_error (chunks : List String) :
    (event_stream chunks).all (fun ev => !ev.isErrorEvent) = true := by
  rw [List.all_eq_true]
  intro ev hev
  simp only [event_stream, List.mem_cons, List.mem_append, List.mem_map,
    List.mem_singleton] at hev
  rcases hev with rfl | ⟨c, _, rfl⟩ | rfl | h <;> first | rfl | cases h

/-- Helper: the SSE stream always terminates with the `done` event. -/
theorem event_stream_last (chunks : List String) :
    (event_stream chunks).getLast? = some (.done (full_result_of chunks)) := by
  rw [event_stream, ← List.cons_append, List.getLast?_concat]

/-- C3 counterexample: a provider that emits `"Hello "` and then fails
with `"boom"` mid-stream.  The delivered event sequence is the real
fragment followed by the complete Mock fragment sequence and a normal
`done` terminator — it contains no error terminator at all, and it does
contain substituted Mock fragments after the real partial output, so the
claimed shape (pre-failure fragments then an explicit error fragment) is
false at this input. -/
theorem stream_midfail_counterexample :
    event_stream (translate_stream (some ⟨("k"), ("u"), ("m")⟩)
        (.midFail [("Hello ")] ("boom")) ("hi") ("中文") ("英文")) =
      [.start, .chunk ("Hello"), .chunk ("[模拟EN]"), .chunk ("hi"),
        .done ("Hello[模拟EN]hi")] ∧
    (event_stream (translate_stream (some ⟨("k"), ("u"), ("m")⟩)
        (.midFail [("Hello ")] ("boom")) ("hi") ("中文") ("英文"))).all
      (fun ev => !ev.isErrorEvent) = true ∧
    (∀ msg, event_stream (translate_stream (some ⟨("k"), ("u"), ("m")⟩)
        (.midFail [("Hello ")] ("boom")) ("hi") ("中文") ("英文")) ≠
      [.start, .chunk ("Hello"), .errorEvent msg]) := by
  have h : translate_stream (some ⟨("k"), ("u"), ("m")⟩)
      (.midFail [("Hello ")] ("boom")) ("hi") ("中文") ("英文") =
      [("Hello "), ("[模拟EN] "), ("hi ")] := by
    simp +decide [translate_stream, preprocess_text, prepare_user_input_for_ai,
      deep_clean_text, deepCleanList, pyStrip, rstrip, collapseSpaces,
      collapseBlankLines, mock_translate_stream, mock_translate, pySplitWs]
  have h2 : event_stream [("Hello "), ("[模拟EN] "), ("hi ")] =
      [.start, .chunk ("Hello"), .chunk ("[模拟EN]"), .chunk ("hi"),
        .done ("Hello[模拟EN]hi")] := by
    simp +decide [event_stream, chunkNonEmpty, cleanChunkText, full_result_of,
      pyStrip, rstrip]
  refine ⟨by rw [h, h2], by rw [h, h2]; decide, ?_⟩
  intro msg heq
  rw [h, h2] at heq
  have := congrArg List.length heq
  simp at this

/-- C3 amended: when the provider fails after emitting some fragments,
the caller receives exactly the pre-failure fragments followed by the
complete Mock fragment sequence for the (sanitized) input, wrapped in a
normally terminated SSE stream: no error terminator is emitted and the
stream ends with the usual `done` event, indistinguishable in shape from
a successful stream. -/
theorem stream_midfail_mock_substitution (p : OpenAIProviderState)
    (pre : List String) (e text src tgt : String) :
    translate_stream (some p) (.midFail pre e) text src tgt =
      pre ++ mock_translate_stream (preprocess_text text) src tgt ∧
    (event_stream (translate_stream (some p) (.midFail pre e) text src tgt)).all
      (fun ev => !ev.isErrorEvent) = true ∧
    (event_stream (translate_stream (some p) (.midFail pre e) text src tgt)).getLast? =
      some (.done (full_result_of
        (pre ++ mock_translate_stream (preprocess_text text) src tgt))) := by
  refine ⟨rfl, event_stream_no_error _, ?_⟩
  exact event_stream_last _

/-! ## C4 — record field gating -/

/-- C4 counterexample: run `TaskService.process_translation_task` (whose
`call_ai_model` attribute does not exist, so the AI step raises an
`AttributeError`) against a fallback-mode store holding the pending
record.  The persisted failed record has `error` set and `result` unset
but **no** `completed_at`, so the claimed invariant is violated by this
execution path. -/
theorem failed_record_without_completed_at_counterexample :
    redisGetJson
      (process_translation_task_service
        (create_task (emptyRedis false) ("t1")
          (pendingRecord ("t1") ("2024-01-01T00:00:00")) 0)
        ("t1")
        (.error ("AttributeError: 'AIService' object has no attribute 'call_ai_model'"))
        1 2 3 ("2024-01-01T00:00:09"))
      (taskKey ("t1")) 4 =
      some (PyVal.obj
        ⟨("t1"), .failed, none,
          some ("AttributeError: 'AIService' object has no attribute 'call_ai_model'"),
          ("2024-01-01T00:00:00"), none⟩) ∧
    recordFieldInvariant
      ⟨("t1"), .failed, none,
        some ("AttributeError: 'AIService' object has no attribute 'call_ai_model'"),
        ("2024-01-01T00:00:00"), none⟩ = false := by
  constructor <;> decide

/-- C4 amended: the router execution paths satisfy the full status-gated
field invariant on every record they persist (failed records carry
`error` and `completed_at`, completed records carry `result` and
`completed_at`, pending/processing records carry neither), while the
`TaskService.process_translation_task` failure path sets `error` and
leaves `result` unset but does not set `completed_at`: applied to a
processing-shaped record its failed record has `completed_at = none`. -/
theorem record_field_gating (tid t0 : String) (outcome : Except String String)
    (t1 t2 t2b t3 t3b : String) :
    (∀ r ∈ translate_async_trace tid t0 outcome t1 t2 t2b t3 t3b,
      recordFieldInvariant r = true) ∧
    (∀ (e : String) (t : TaskResult), t.result = none → t.completed_at = none →
      (failUpd e t).status = .failed ∧ (failUpd e t).error = some e ∧
      (failUpd e t).result = none ∧ (failUpd e t).completed_at = none) ∧
    (∀ (res iso : String) (t : TaskResult), t.error = none →
      recordFieldInvariant (complUpd res iso t) = true) := by
  refine ⟨?_, ?_, ?_⟩
  · cases outcome <;>
      simp [translate_async_trace, process_translation_task_writes,
        pendingRecord, processingRecord, completedRecord, failedRecord,
        recordFieldInvariant]
  · intro e t h1 h2
    simp [failUpd, h1, h2]
  · intro res iso t h
    simp [complUpd, recordFieldInvariant, h]

/-- C4 amended witness: the amended theorem applied at a concrete trace
element and a concrete processing-shaped record. -/
theorem record_field_gating_witness :
    recordFieldInvariant (completedRecord ("t1") ("res") ("c") ("c")) = true ∧
    (failUpd ("E") ⟨("t1"), .processing, none, none, ("a"), none⟩).completed_at = none :=
  ⟨(record_field_gating ("t1") ("a") (.ok ("res")) ("b") ("c") ("c") ("d") ("d")).1
      (completedRecord ("t1") ("res") ("c") ("c")) (by decide),
   ((record_field_gating ("t1") ("a") (.ok ("res")) ("b") ("c") ("c") ("d") ("d")).2.1
      ("E") ⟨("t1"), .processing, none, none, ("a"), none⟩ rfl rfl).2.2.2⟩

/-! ## C6 — polling -/

/-- C6: polling an unknown id returns the not-found signal in both
modes, and in external-store mode an existing record is returned field
for field as written; but in fallback mode the poll of a record written
by `translate_async` **crashes**: the router stored the
`model_dump_json` string via `redis_client.set`, the fallback branch of
`get_json` hands that string back unparsed, and `TaskResult(**task_data)`
raises `TypeError`, observed by the caller as an unhandled 500 — not the
record and not a not-found signal.  This evaluates the code at the
failing input. -/
theorem poll_fallback_crash :
    get_task_result (emptyRedis false) ("missing") 0 = .notFound ∧
    get_task_result (emptyRedis true) ("missing") 0 = .notFound ∧
    get_task_result
      (translate_async_submit (emptyRedis true) ("t1") ("2024-01-01T00:00:00") 0)
      ("t1") 5 = .ok (pendingRecord ("t1") ("2024-01-01T00:00:00")) ∧
    get_task_result
      (translate_async_submit (emptyRedis false) ("t1") ("2024-01-01T00:00:00") 0)
      ("t1") 5 =
      .crash ("TypeError: argument after ** must be a mapping, not str") := by
  refine ⟨by decide, by decide, by decide, by decide⟩

/-! ## C1 — sanitizer output survives the JSON boundary -/

/-- Hex digits emitted by the escaper decode to their value. -/
theorem hexVal_hexDigitChar {n : Nat} (h : n < 16) :
    hexVal (hexDigitChar n) = some n := by
  interval_cases n <;> decide

/-- One-step unfolding of `parseStringBody` on a cons cell. -/
theorem parseStringBody_cons (c : Char) (cs : List Char) :
    parseStringBody (c :: cs) =
      (if c = '"' then some ([], cs)
       else if c = '\\' then
         match cs with
         | [] => none
         | e :: cs2 =>
           if e = '"' then consParse '"' (parseStringBody cs2)
           else if e = '\\' then consParse '\\' (parseStringBody cs2)
           else if e = '/' then consParse '/' (parseStringBody cs2)
           else if e = 'n' then consParse '\n' (parseStringBody cs2)
           else if e = 'r' then consParse '\r' (parseStringBody cs2)
           else if e = 't' then consParse '\t' (parseStringBody cs2)
           else if e = 'b' then consParse (Char.ofNat 8) (parseStringBody cs2)
           else if e = 'f' then consParse (Char.ofNat 12) (parseStringBody cs2)
           else if e = 'u' then
             match cs2 with
             | h1 :: h2 :: h3 :: h4 :: cs3 =>
               match hexVal h1, hexVal h2, hexVal h3, hexVal h4 with
               | some a, some b, some d, some e4 =>
                 let v := a * 4096 + b * 256 + d * 16 + e4
                 if v < 0xD800 then consParse (Char.ofNat v) (parseStringBody cs3)
                 else none
               | _, _, _, _ => none
             | _ => none
           else none
       else if c.toNat < 32 then none
       else consParse c (parseStringBody cs)) := by
  conv_lhs => rw [parseStringBody.eq_def]

/-- Decoding inverts escaping: parsing the escaped body followed by the
closing quote recovers the original characters and the remaining input. -/
theorem parseStringBody_escape (l rest : List Char) :
    parseStringBody (jsonEscapeList l ++ '"' :: rest) = some (l, rest) := by
  induction l with
  | nil => simp +decide [jsonEscapeList, parseStringBody_cons]
  | cons c tail ih =>
    have hflat : jsonEscapeList (c :: tail) = jsonEscapeChar c ++ jsonEscapeList tail := by
      simp [jsonEscapeList]
    rw [hflat, List.append_assoc]
    by_cases h1 : c = '"'
    · subst h1; simp +decide [jsonEscapeChar, parseStringBody_cons, consParse, ih]
    · by_cases h2 : c = '\\'
      · subst h2; simp +decide [jsonEscapeChar, parseStringBody_cons, consParse, ih]
      · by_cases h3 : c = '\n'
        · subst h3; simp +decide [jsonEscapeChar, parseStringBody_cons, consParse, ih]
        · by_cases h4 : c = '\r'
          · subst h4; simp +decide [jsonEscapeChar, parseStringBody_cons, consParse, ih]
          · by_cases h5 : c = '\t'
            · subst h5; simp +decide [jsonEscapeChar, parseStringBody_cons, consParse, ih]
            · by_cases h6 : c = Char.ofNat 8
              · subst h6; simp +decide [jsonEscapeChar, parseStringBody_cons, consParse, ih]
              · by_cases h7 : c = Char.ofNat 12
                · subst h7; simp +decide [jsonEscapeChar, parseStringBody_cons, consParse, ih]
                · by_cases h8 : c.toNat < 32
                  · have hesc : jsonEscapeChar c =
                        ['\\', 'u', '0', '0', hexDigitChar (c.toNat / 16),
                          hexDigitChar (c.toNat % 16)] := by
                      simp [jsonEscapeChar, h1, h2, h3, h4, h5, h6, h7, h8]
                    rw [hesc]
                    have hdiv : c.toNat / 16 < 16 := by omega
                    have hmod : c.toNat % 16 < 16 := Nat.mod_lt _ (by omega)
                    have h0 : hexVal ('0') = some 0 := by decide
                    have hv : 0 * 4096 + 0 * 256 + c.toNat / 16 * 16 + c.toNat % 16 =
                        c.toNat := by omega
                    have hv2 : c.toNat / 16 * 16 + c.toNat % 16 = c.toNat := by omega
                    have hlt : c.toNat < 55296 := by omega
                    simp +decide [parseStringBody_cons, h0, hexVal_hexDigitChar hdiv,
                      hexVal_hexDigitChar hmod, hv, hv2, hlt, consParse, ih,
                      Char.ofNat_toNat]
                  · have hesc : jsonEscapeChar c = [c] := by
                      simp [jsonEscapeChar, h1, h2, h3, h4, h5, h6, h7, h8]
                    rw [hesc]
                    simp only [List.cons_append, List.nil_append]
                    rw [parseStringBody_cons]
                    simp [h1, h2, h8, consParse, ih]

/-- Embedding any string as the `"text"` field of a JSON object,
serializing with `json.dumps(..., ensure_ascii=False)` and re-parsing
recovers the string exactly. -/
theorem dumps_parse_roundtrip (s : String) :
    parseTextPayload (dumpsTextPayload s) = some s := by
  have h := parseStringBody_escape s.data [rbrace]
  simp only [dumpsTextPayload, parseTextPayload, h]
  simp +decide

/-- C1: `prepare_user_input_for_ai` is a total function on strings (in
this embedding it is a plain function, and the source's only `except`
clause is unreachable — see its definition), and its result, embedded as
the value of a JSON object field, serialized, and re-parsed, is recovered
unchanged. -/
theorem sanitizer_output_json_roundtrip (u : String) :
    parseTextPayload (dumpsTextPayload (prepare_user_input_for_ai u)) =
      some (prepare_user_input_for_ai u) :=
  dumps_parse_roundtrip _

/-! ## C7 — idempotence of the sanitizer

Strategy: characterize the output of `deepCleanList` by four invariants —
all characters allowed (`AllAllowed`), every whitespace run holds at most
two newlines (`GoodNl`), no tabs (`NoTab`), no adjacent spaces
(`NoTwoSpaces`) — plus being stripped; each stage of a second pass is then
the identity. -/

theorem isBlankHT_space {c : Char} (h : isBlankHT c = true) :
    isPythonSpace c = true := by
  simp only [isBlankHT, Bool.or_eq_true, beq_iff_eq] at h
  rcases h with rfl | rfl <;> decide

theorem allowedChar_of_space {c : Char} (h : isPythonSpace c = true) :
    allowedChar c = true := by
  simp [allowedChar, h]

/-- One-step unfolding of `collapseBlankLines` on a cons cell. -/
theorem collapseBlankLines_cons (c : Char) (cs : List Char) :
    collapseBlankLines (c :: cs) =
      if c = '\n' ∧ 3 ≤ ((c :: cs).takeWhile isPythonSpace).count '\n' then
        '\n' :: '\n' :: collapseBlankLines ((c :: cs).drop (blankMatchLen (c :: cs)))
      else c :: collapseBlankLines cs := by
  rw [collapseBlankLines]
  exact dite_eq_ite

/-- One-step unfolding of `collapseSpaces` on a cons cell. -/
theorem collapseSpaces_cons (c : Char) (cs : List Char) :
    collapseSpaces (c :: cs) =
      if isBlankHT c then ' ' :: collapseSpaces (cs.dropWhile isBlankHT)
      else c :: collapseSpaces cs := by
  rw [collapseSpaces]

theorem collapseBlankLines_nil : collapseBlankLines [] = [] := by
  rw [collapseBlankLines]

theorem collapseSpaces_nil : collapseSpaces [] = [] := by
  rw [collapseSpaces]

/-- A `takeWhile` prefix of a `dropWhile` remainder (same predicate) is
empty. -/
theorem takeWhile_dropWhile_eq_nil (p : Char → Bool) (l : List Char) :
    (l.dropWhile p).takeWhile p = [] := by
  induction l with
  | nil => rfl
  | cons c cs ih =>
    by_cases h : p c = true
    · simpa [List.dropWhile_cons, h] using ih
    · simp [List.dropWhile_cons, h, List.takeWhile_cons]

/-- The head of a `dropWhile` remainder fails the predicate. -/
theorem head?_dropWhile_false (p : Char → Bool) (l : List Char) {a : Char}
    (h : (l.dropWhile p).head? = some a) : p a = false := by
  have hm := List.head?_dropWhile_not p l
  rw [h] at hm
  exact hm

/-- Decomposition of `dropTrailingNonNl`: the list is the kept part
followed by a newline-free tail. -/
theorem dropTrailingNonNl_decomp (r : List Char) :
    r = dropTrailingNonNl r ++ (r.reverse.takeWhile (fun c => c != '\n')).reverse ∧
    ∀ a ∈ (r.reverse.takeWhile (fun c => c != '\n')).reverse, a ≠ '\n' := by
  constructor
  · conv_lhs => rw [← List.reverse_reverse r,
      ← List.takeWhile_append_dropWhile (p := fun c => c != '\n') (l := r.reverse)]
    rw [List.reverse_append]
    rfl
  · intro a ha
    have ha2 : a ∈ r.reverse.takeWhile (fun c => c != '\n') :=
      List.mem_reverse.mp ha
    have := List.mem_takeWhile_imp ha2
    simpa using this

/-- Under the match guard, the dropped region decomposes as the kept
newline prefix plus a whitespace, newline-free remainder `w`; what is
left of the input after the match is `w` followed by the non-whitespace
continuation, and its leading whitespace run holds no newline. -/
theorem blank_match_decomp (l : List Char)
    (h3 : 3 ≤ (l.takeWhile isPythonSpace).count '\n') :
    ∃ w, (∀ a ∈ w, a ≠ '\n' ∧ isPythonSpace a = true) ∧
      l.drop (blankMatchLen l) = w ++ l.dropWhile isPythonSpace ∧
      (l.drop (blankMatchLen l)).takeWhile isPythonSpace = w := by
  obtain ⟨hdec, hnl⟩ := dropTrailingNonNl_decomp (l.takeWhile isPythonSpace)
  have hwS : ∀ a ∈ ((l.takeWhile isPythonSpace).reverse.takeWhile
      (fun c => c != '\n')).reverse, isPythonSpace a = true := by
    intro a ha
    have : a ∈ l.takeWhile isPythonSpace := by
      rw [hdec]
      exact List.mem_append_right _ ha
    exact List.mem_takeWhile_imp this
  have hl : l = dropTrailingNonNl (l.takeWhile isPythonSpace) ++
      (((l.takeWhile isPythonSpace).reverse.takeWhile (fun c => c != '\n')).reverse ++
        l.dropWhile isPythonSpace) := by
    conv_lhs => rw [← List.takeWhile_append_dropWhile (p := isPythonSpace) (l := l)]
    conv_lhs => rw [hdec]
    rw [List.append_assoc]
  have hml : (dropTrailingNonNl (l.takeWhile isPythonSpace)).length =
      blankMatchLen l := rfl
  have hdrop : (dropTrailingNonNl (l.takeWhile isPythonSpace) ++
      (((l.takeWhile isPythonSpace).reverse.takeWhile (fun c => c != '\n')).reverse ++
        l.dropWhile isPythonSpace)).drop (blankMatchLen l) =
      ((l.takeWhile isPythonSpace).reverse.takeWhile (fun c => c != '\n')).reverse ++
        l.dropWhile isPythonSpace := List.drop_left' hml
  rw [← hl] at hdrop
  refine ⟨((l.takeWhile isPythonSpace).reverse.takeWhile (fun c => c != '\n')).reverse,
    fun a ha => ⟨hnl a ha, hwS a ha⟩, hdrop, ?_⟩
  rw [hdrop, List.takeWhile_append_of_pos hwS,
    takeWhile_dropWhile_eq_nil, List.append_nil]

/-- Under the match guard the matched region is non-empty and bounded by
the input length. -/
theorem blankMatchLen_bounds (l : List Char)
    (h3 : 3 ≤ (l.takeWhile isPythonSpace).count '\n') :
    0 < blankMatchLen l ∧ blankMatchLen l ≤ l.length := by
  constructor
  · by_contra h0
    have hlen : blankMatchLen l = 0 := by omega
    have hnil : dropTrailingNonNl (l.takeWhile isPythonSpace) = [] :=
      List.length_eq_zero.mp hlen
    have hmem : '\n' ∈ l.takeWhile isPythonSpace :=
      List.count_pos_iff.mp (by omega)
    have hrev : (l.takeWhile isPythonSpace).reverse.dropWhile
        (fun c => c != '\n') = [] := by
      have := congrArg List.reverse hnil
      simpa [dropTrailingNonNl] using this
    have hall := List.dropWhile_eq_nil_iff.mp hrev
    have := hall _ (List.mem_reverse.mpr hmem)
    simp at this
  · have h1 : (dropTrailingNonNl (l.takeWhile isPythonSpace)).length ≤
        (l.takeWhile isPythonSpace).reverse.length := by
      unfold dropTrailingNonNl
      rw [List.length_reverse]
      exact (List.dropWhile_sublist _).length_le
    have h2 : (l.takeWhile isPythonSpace).length ≤ l.length :=
      (List.takeWhile_sublist _).length_le
    unfold blankMatchLen
    simp only [List.length_reverse] at h1
    omega

theorem goodNl_suffix_closed {l t : List Char} (hs : t <:+ l) (h : GoodNl l) : GoodNl t :=
  fun u hu => h u (hu.trans hs)

/-- The blank-line collapse never increases the newline count of the
leading whitespace run. -/
theorem count_nl_B_le (l : List Char) :
    ((collapseBlankLines l).takeWhile isPythonSpace).count '\n' ≤
      (l.takeWhile isPythonSpace).count '\n' := by
  cases l with
  | nil => simp [collapseBlankLines_nil]
  | cons c cs =>
    rw [collapseBlankLines_cons]
    by_cases hg : c = '\n' ∧ 3 ≤ ((c :: cs).takeWhile isPythonSpace).count '\n'
    · rw [if_pos hg]
      obtain ⟨w, hwProp, hdrop, htake⟩ := blank_match_decomp (c :: cs) hg.2
      have hrest := count_nl_B_le ((c :: cs).drop (blankMatchLen (c :: cs)))
      have hw0 : (((c :: cs).drop (blankMatchLen (c :: cs))).takeWhile
          isPythonSpace).count '\n' = 0 := by
        rw [htake]
        exact List.count_eq_zero.mpr (fun hmem => (hwProp _ hmem).1 rfl)
      have hS : isPythonSpace '\n' = true := by decide
      rw [List.takeWhile_cons_of_pos hS, List.takeWhile_cons_of_pos hS]
      simp only [List.count_cons, beq_self_eq_true, if_true]
      omega
    · rw [if_neg hg]
      by_cases hSc : isPythonSpace c = true
      · rw [List.takeWhile_cons_of_pos hSc, List.takeWhile_cons_of_pos hSc]
        have := count_nl_B_le cs
        simp only [List.count_cons]
        split <;> omega
      · rw [List.takeWhile_cons_of_neg (by simp [hSc]),
          List.takeWhile_cons_of_neg (by simp [hSc])]
termination_by l.length
decreasing_by
  · have hb := blankMatchLen_bounds _ hg.2
    simp only [List.length_drop, List.length_cons] at *
    omega
  · simp only [List.length_cons]
    omega

/-- After the blank-line collapse, the leading whitespace run holds at
most two newlines. -/
theorem count_nl_B_le_two (l : List Char) :
    ((collapseBlankLines l).takeWhile isPythonSpace).count '\n' ≤ 2 := by
  cases l with
  | nil => simp [collapseBlankLines_nil]
  | cons c cs =>
    rw [collapseBlankLines_cons]
    by_cases hg : c = '\n' ∧ 3 ≤ ((c :: cs).takeWhile isPythonSpace).count '\n'
    · rw [if_pos hg]
      obtain ⟨w, hwProp, hdrop, htake⟩ := blank_match_decomp (c :: cs) hg.2
      have hrest := count_nl_B_le ((c :: cs).drop (blankMatchLen (c :: cs)))
      have hw0 : (((c :: cs).drop (blankMatchLen (c :: cs))).takeWhile
          isPythonSpace).count '\n' = 0 := by
        rw [htake]
        exact List.count_eq_zero.mpr (fun hmem => (hwProp _ hmem).1 rfl)
      have hS : isPythonSpace '\n' = true := by decide
      rw [List.takeWhile_cons_of_pos hS, List.takeWhile_cons_of_pos hS]
      simp only [List.count_cons, beq_self_eq_true, if_true]
      omega
    · rw [if_neg hg]
      by_cases hSc : isPythonSpace c = true
      · by_cases hc : c = '\n'
        · subst hc
          have hle : ((('\n' :: cs)).takeWhile isPythonSpace).count '\n' ≤ 2 := by
            by_contra hlt
            exact hg ⟨rfl, by omega⟩
          rw [List.takeWhile_cons_of_pos hSc] at hle ⊢
          have := count_nl_B_le cs
          simp only [List.count_cons, beq_self_eq_true, if_true] at hle ⊢
          omega
        · rw [List.takeWhile_cons_of_pos hSc]
          have := count_nl_B_le_two cs
          simp only [List.count_cons]
          split
          · rename_i hbe
            exact absurd (by simpa using hbe) hc
          · omega
      · rw [List.takeWhile_cons_of_neg (by simp [hSc])]
        simp
termination_by l.length
decreasing_by
  all_goals simp only [List.length_drop, List.length_cons]
  all_goals omega

/-- The output of the blank-line collapse satisfies `GoodNl`: no
whitespace run anywhere in it holds three newlines. -/
theorem goodNl_B (l : List Char) : GoodNl (collapseBlankLines l) := by
  suffices main : ∀ n l, List.length l ≤ n → GoodNl (collapseBlankLines l) from
    main l.length l (Nat.le_refl _)
  intro n
  induction n with
  | zero =>
    intro l hl
    obtain rfl := List.length_eq_zero.mp (Nat.le_zero.mp hl)
    rw [collapseBlankLines_nil]
    intro t ht
    obtain rfl := List.suffix_nil.mp ht
    simp
  | succ n ih =>
    intro l hl t ht
    cases l with
    | nil =>
      rw [collapseBlankLines_nil] at ht
      obtain rfl := List.suffix_nil.mp ht
      simp
    | cons c cs =>
      rw [collapseBlankLines_cons] at ht
      simp only [List.length_cons] at hl
      by_cases hg : c = '\n' ∧ 3 ≤ ((c :: cs).takeWhile isPythonSpace).count '\n'
      · rw [if_pos hg] at ht
        obtain ⟨w, hwProp, hdrop, htake⟩ := blank_match_decomp (c :: cs) hg.2
        have hb := blankMatchLen_bounds (c :: cs) hg.2
        have hw0 : (((c :: cs).drop (blankMatchLen (c :: cs))).takeWhile
            isPythonSpace).count '\n' = 0 := by
          rw [htake]
          exact List.count_eq_zero.mpr (fun hmem => (hwProp _ hmem).1 rfl)
        have hble := count_nl_B_le ((c :: cs).drop (blankMatchLen (c :: cs)))
        have hS : isPythonSpace '\n' = true := by decide
        have hrec : GoodNl (collapseBlankLines ((c :: cs).drop (blankMatchLen (c :: cs)))) := by
          apply ih
          simp only [List.length_drop, List.length_cons] at *
          omega
        rcases List.suffix_cons_iff.mp ht with rfl | ht2
        · rw [List.takeWhile_cons_of_pos hS, List.takeWhile_cons_of_pos hS]
          simp only [List.count_cons, beq_self_eq_true, if_true]
          omega
        · rcases List.suffix_cons_iff.mp ht2 with rfl | ht3
          · rw [List.takeWhile_cons_of_pos hS]
            simp only [List.count_cons, beq_self_eq_true, if_true]
            omega
          · exact hrec t ht3
      · rw [if_neg hg] at ht
        rcases List.suffix_cons_iff.mp ht with rfl | ht2
        · by_cases hSc : isPythonSpace c = true
          · rw [List.takeWhile_cons_of_pos hSc]
            by_cases hc : c = '\n'
            · subst hc
              have hle : (('\n' :: cs).takeWhile isPythonSpace).count '\n' ≤ 2 := by
                by_contra hlt
                exact hg ⟨rfl, by omega⟩
              rw [List.takeWhile_cons_of_pos hSc] at hle
              have := count_nl_B_le cs
              simp only [List.count_cons, beq_self_eq_true, if_true] at hle ⊢
              omega
            · have := count_nl_B_le_two cs
              simp only [List.count_cons]
              split
              · rename_i hbe
                exact absurd (by simpa using hbe) hc
              · omega
          · rw [List.takeWhile_cons_of_neg (by simp [hSc])]
            simp
        · exact ih cs (by omega) t ht2

/-- Characters of the collapse output come from the input or are
newlines. -/
theorem mem_collapseBlankLines {a : Char} (l : List Char)
    (h : a ∈ collapseBlankLines l) : a ∈ l ∨ a = '\n' := by
  suffices main : ∀ n l, List.length l ≤ n → a ∈ collapseBlankLines l → a ∈ l ∨ a = '\n' from
    main l.length l (Nat.le_refl _) h
  intro n
  induction n with
  | zero =>
    intro l hl hm
    obtain rfl := List.length_eq_zero.mp (Nat.le_zero.mp hl)
    rw [collapseBlankLines_nil] at hm
    cases hm
  | succ n ih =>
    intro l hl hm
    cases l with
    | nil => rw [collapseBlankLines_nil] at hm; cases hm
    | cons c cs =>
      rw [collapseBlankLines_cons] at hm
      simp only [List.length_cons] at hl
      by_cases hg : c = '\n' ∧ 3 ≤ ((c :: cs).takeWhile isPythonSpace).count '\n'
      · rw [if_pos hg] at hm
        have hb := blankMatchLen_bounds (c :: cs) hg.2
        simp only [List.mem_cons] at hm
        rcases hm with rfl | rfl | h3
        · exact Or.inr rfl
        · exact Or.inr rfl
        · have hrec := ih ((c :: cs).drop (blankMatchLen (c :: cs)))
            (by simp only [List.length_drop, List.length_cons] at *; omega) h3
          rcases hrec with h4 | h4
          · exact Or.inl (List.drop_subset _ _ h4)
          · exact Or.inr h4
      · rw [if_neg hg] at hm
        simp only [List.mem_cons] at hm
        rcases hm with rfl | h2
        · exact Or.inl (List.mem_cons_self _ _)
        · rcases ih cs (by omega) h2 with h4 | h4
          · exact Or.inl (List.mem_cons_of_mem _ h4)
          · exact Or.inr h4

/-- On `GoodNl` input the blank-line collapse is the identity. -/
theorem collapseBlankLines_eq_self (l : List Char) (h : GoodNl l) :
    collapseBlankLines l = l := by
  suffices main : ∀ n l, List.length l ≤ n → GoodNl l → collapseBlankLines l = l from
    main l.length l (Nat.le_refl _) h
  intro n
  induction n with
  | zero =>
    intro l hl _
    obtain rfl := List.length_eq_zero.mp (Nat.le_zero.mp hl)
    exact collapseBlankLines_nil
  | succ n ih =>
    intro l hl hgood
    cases l with
    | nil => exact collapseBlankLines_nil
    | cons c cs =>
      simp only [List.length_cons] at hl
      have hguard : ¬(c = '\n' ∧ 3 ≤ ((c :: cs).takeWhile isPythonSpace).count '\n') := by
        rintro ⟨rfl, h3⟩
        have := hgood ('\n' :: cs) (List.suffix_refl _)
        omega
      rw [collapseBlankLines_cons, if_neg hguard]
      have hcs : GoodNl cs := goodNl_suffix_closed (List.suffix_cons c cs) hgood
      rw [ih cs (by omega) hcs]

theorem noTwoSpaces_suffix_closed {l t : List Char} (hs : t <:+ l) (h : NoTwoSpaces l) :
    NoTwoSpaces t :=
  fun u hu => h u (hu.trans hs)

/-- Characters of the space collapse come from the input or are spaces. -/
theorem mem_collapseSpaces {a : Char} (l : List Char)
    (h : a ∈ collapseSpaces l) : a ∈ l ∨ a = ' ' := by
  suffices main : ∀ n l, List.length l ≤ n → a ∈ collapseSpaces l → a ∈ l ∨ a = ' ' from
    main l.length l (Nat.le_refl _) h
  intro n
  induction n with
  | zero =>
    intro l hl hm
    obtain rfl := List.length_eq_zero.mp (Nat.le_zero.mp hl)
    rw [collapseSpaces_nil] at hm
    cases hm
  | succ n ih =>
    intro l hl hm
    cases l with
    | nil => rw [collapseSpaces_nil] at hm; cases hm
    | cons c cs =>
      rw [collapseSpaces_cons] at hm
      simp only [List.length_cons] at hl
      by_cases hc : isBlankHT c = true
      · rw [if_pos hc] at hm
        simp only [List.mem_cons] at hm
        rcases hm with rfl | h2
        · exact Or.inr rfl
        · have hlen := (List.dropWhile_sublist (l := cs) (p := isBlankHT)).length_le
          rcases ih _ (by omega) h2 with h4 | h4
          · exact Or.inl (List.mem_cons_of_mem _
              ((List.dropWhile_sublist _).mem h4))
          · exact Or.inr h4
      · rw [if_neg hc] at hm
        simp only [List.mem_cons] at hm
        rcases hm with rfl | h2
        · exact Or.inl (List.mem_cons_self _ _)
        · rcases ih cs (by omega) h2 with h4 | h4
          · exact Or.inl (List.mem_cons_of_mem _ h4)
          · exact Or.inr h4

/-- The space collapse removes every tab. -/
theorem noTab_collapseSpaces (l : List Char) : NoTab (collapseSpaces l) := by
  suffices main : ∀ n l, List.length l ≤ n → NoTab (collapseSpaces l) from
    main l.length l (Nat.le_refl _)
  intro n
  induction n with
  | zero =>
    intro l hl
    obtain rfl := List.length_eq_zero.mp (Nat.le_zero.mp hl)
    rw [collapseSpaces_nil]
    intro a ha
    cases ha
  | succ n ih =>
    intro l hl a ha
    cases l with
    | nil => rw [collapseSpaces_nil] at ha; cases ha
    | cons c cs =>
      rw [collapseSpaces_cons] at ha
      simp only [List.length_cons] at hl
      by_cases hc : isBlankHT c = true
      · rw [if_pos hc] at ha
        simp only [List.mem_cons] at ha
        rcases ha with rfl | h2
        · decide
        · have hlen := (List.dropWhile_sublist (l := cs) (p := isBlankHT)).length_le
          exact ih _ (by omega) a h2
      · rw [if_neg hc] at ha
        simp only [List.mem_cons] at ha
        rcases ha with rfl | h2
        · intro hEq
          subst hEq
          exact hc (by decide)
        · exact ih cs (by omega) a h2

/-- If the space collapse starts with a space, the input started with a
space or tab. -/
theorem collapseSpaces_head_space (z : List Char)
    (h : (collapseSpaces z).head? = some ' ') :
    ∃ d, z.head? = some d ∧ isBlankHT d = true := by
  cases z with
  | nil => rw [collapseSpaces_nil] at h; cases h
  | cons d ds =>
    rw [collapseSpaces_cons] at h
    by_cases hd : isBlankHT d = true
    · exact ⟨d, rfl, hd⟩
    · rw [if_neg hd] at h
      simp only [List.head?_cons, Option.some_inj] at h
      subst h
      exact absurd (by decide) hd

/-- The space collapse leaves no two adjacent spaces. -/
theorem noTwoSpaces_collapseSpaces (l : List Char) :
    NoTwoSpaces (collapseSpaces l) := by
  suffices main : ∀ n l, List.length l ≤ n → NoTwoSpaces (collapseSpaces l) from
    main l.length l (Nat.le_refl _)
  intro n
  induction n with
  | zero =>
    intro l hl t ht hpre
    obtain rfl := List.length_eq_zero.mp (Nat.le_zero.mp hl)
    rw [collapseSpaces_nil] at ht
    obtain rfl := List.suffix_nil.mp ht
    rcases hpre with ⟨r, hr⟩
    cases hr
  | succ n ih =>
    intro l hl t ht hpre
    cases l with
    | nil =>
      rw [collapseSpaces_nil] at ht
      obtain rfl := List.suffix_nil.mp ht
      rcases hpre with ⟨r, hr⟩
      cases hr
    | cons c cs =>
      rw [collapseSpaces_cons] at ht
      simp only [List.length_cons] at hl
      by_cases hc : isBlankHT c = true
      · rw [if_pos hc] at ht
        have hlen := (List.dropWhile_sublist (l := cs) (p := isBlankHT)).length_le
        rcases List.suffix_cons_iff.mp ht with rfl | ht2
        · rcases hpre with ⟨r, hr⟩
          simp only [List.cons_append, List.nil_append, List.cons.injEq] at hr
          obtain ⟨-, hr2⟩ := hr
          have hhead : (collapseSpaces (cs.dropWhile isBlankHT)).head? = some ' ' := by
            rw [← hr2]
            rfl
          obtain ⟨d, hd1, hd2⟩ := collapseSpaces_head_space _ hhead
          have := head?_dropWhile_false isBlankHT cs hd1
          rw [hd2] at this
          cases this
        · exact ih _ (by omega) t ht2 hpre
      · rw [if_neg hc] at ht
        rcases List.suffix_cons_iff.mp ht with rfl | ht2
        · rcases hpre with ⟨r, hr⟩
          simp only [List.cons_append, List.nil_append, List.cons.injEq] at hr
          obtain ⟨rfl, -⟩ := hr
          exact hc (by decide)
        · exact ih cs (by omega) t ht2 hpre

/-- On tab-free input without adjacent spaces the space collapse is the
identity. -/
theorem collapseSpaces_eq_self (l : List Char) (h1 : NoTab l)
    (h2 : NoTwoSpaces l) : collapseSpaces l = l := by
  suffices main : ∀ n l, List.length l ≤ n → NoTab l → NoTwoSpaces l →
      collapseSpaces l = l from main l.length l (Nat.le_refl _) h1 h2
  intro n
  induction n with
  | zero =>
    intro l hl _ _
    obtain rfl := List.length_eq_zero.mp (Nat.le_zero.mp hl)
    exact collapseSpaces_nil
  | succ n ih =>
    intro l hl hTab hSS
    cases l with
    | nil => exact collapseSpaces_nil
    | cons c cs =>
      rw [collapseSpaces_cons]
      simp only [List.length_cons] at hl
      have hTabCs : NoTab cs := fun a ha => hTab a (List.mem_cons_of_mem _ ha)
      have hSSCs : NoTwoSpaces cs := noTwoSpaces_suffix_closed (List.suffix_cons c cs) hSS
      by_cases hc : isBlankHT c = true
      · rw [if_pos hc]
        have hcSpace : c = ' ' := by
          simp only [isBlankHT, Bool.or_eq_true, beq_iff_eq] at hc
          rcases hc with rfl | rfl
          · rfl
          · exact absurd rfl (hTab '\t' (List.mem_cons_self _ _))
        have hdrop : cs.dropWhile isBlankHT = cs := by
          cases cs with
          | nil => rfl
          | cons d ds =>
            by_cases hd : isBlankHT d = true
            · exfalso
              have hdSpace : d = ' ' := by
                simp only [isBlankHT, Bool.or_eq_true, beq_iff_eq] at hd
                rcases hd with rfl | rfl
                · rfl
                · exact absurd rfl (hTab '\t'
                    (List.mem_cons_of_mem _ (List.mem_cons_self _ _)))
              subst hdSpace
              subst hcSpace
              exact hSS (' ' :: ' ' :: ds) (List.suffix_refl _) ⟨ds, rfl⟩
            · exact List.dropWhile_cons_of_neg hd
        rw [hdrop, hcSpace, ih cs (by omega) hTabCs hSSCs]
      · rw [if_neg hc, ih cs (by omega) hTabCs hSSCs]

/-- Dropping leading spaces/tabs never increases the newline count of
the leading whitespace run. -/
theorem count_nl_dropWhileHT_le (z : List Char) :
    (((z.dropWhile isBlankHT).takeWhile isPythonSpace).count '\n') ≤
      ((z.takeWhile isPythonSpace).count '\n') := by
  induction z with
  | nil => simp
  | cons c cs ih =>
    by_cases hc : isBlankHT c = true
    · rw [List.dropWhile_cons_of_pos hc,
        List.takeWhile_cons_of_pos (isBlankHT_space hc)]
      have hcn : c ≠ '\n' := by
        simp only [isBlankHT, Bool.or_eq_true, beq_iff_eq] at hc
        rcases hc with rfl | rfl <;> decide
      simp only [List.count_cons]
      split
      · rename_i hbe
        exact absurd (by simpa using hbe) hcn
      · omega
    · rw [List.dropWhile_cons_of_neg hc]

/-- The space collapse never increases the newline count of the leading
whitespace run. -/
theorem count_nl_W_le (z : List Char) :
    (((collapseSpaces z).takeWhile isPythonSpace).count '\n') ≤
      ((z.takeWhile isPythonSpace).count '\n') := by
  suffices main : ∀ n z, List.length z ≤ n →
      (((collapseSpaces z).takeWhile isPythonSpace).count '\n') ≤
        ((z.takeWhile isPythonSpace).count '\n') from
    main z.length z (Nat.le_refl _)
  intro n
  induction n with
  | zero =>
    intro z hl
    obtain rfl := List.length_eq_zero.mp (Nat.le_zero.mp hl)
    simp [collapseSpaces_nil]
  | succ n ih =>
    intro z hl
    cases z with
    | nil => simp [collapseSpaces_nil]
    | cons c cs =>
      rw [collapseSpaces_cons]
      simp only [List.length_cons] at hl
      by_cases hc : isBlankHT c = true
      · rw [if_pos hc]
        have hSp : isPythonSpace ' ' = true := by decide
        rw [List.takeWhile_cons_of_pos hSp,
          List.takeWhile_cons_of_pos (isBlankHT_space hc)]
        have hlen := (List.dropWhile_sublist (l := cs) (p := isBlankHT)).length_le
        have h1 := ih (cs.dropWhile isBlankHT) (by omega)
        have h2 := count_nl_dropWhileHT_le cs
        have hcn : c ≠ '\n' := by
          simp only [isBlankHT, Bool.or_eq_true, beq_iff_eq] at hc
          rcases hc with rfl | rfl <;> decide
        simp only [List.count_cons]
        split
        · rename_i hbe
          exact absurd (by simpa using hbe) hcn
        · omega
      · rw [if_neg hc]
        by_cases hSc : isPythonSpace c = true
        · rw [List.takeWhile_cons_of_pos hSc, List.takeWhile_cons_of_pos hSc]
          have := ih cs (by omega)
          simp only [List.count_cons]
          split <;> omega
        · rw [List.takeWhile_cons_of_neg (by simp [hSc]),
            List.takeWhile_cons_of_neg (by simp [hSc])]

/-- The space collapse preserves `GoodNl`. -/
theorem goodNl_collapseSpaces (z : List Char) (h : GoodNl z) :
    GoodNl (collapseSpaces z) := by
  suffices main : ∀ n z, List.length z ≤ n → GoodNl z → GoodNl (collapseSpaces z) from
    main z.length z (Nat.le_refl _) h
  intro n
  induction n with
  | zero =>
    intro z hl _
    obtain rfl := List.length_eq_zero.mp (Nat.le_zero.mp hl)
    rw [collapseSpaces_nil]
    intro t ht
    obtain rfl := List.suffix_nil.mp ht
    simp
  | succ n ih =>
    intro z hl hz t ht
    cases z with
    | nil =>
      rw [collapseSpaces_nil] at ht
      obtain rfl := List.suffix_nil.mp ht
      simp
    | cons c cs =>
      rw [collapseSpaces_cons] at ht
      simp only [List.length_cons] at hl
      by_cases hc : isBlankHT c = true
      · rw [if_pos hc] at ht
        have hlen := (List.dropWhile_sublist (l := cs) (p := isBlankHT)).length_le
        have hsuf : cs.dropWhile isBlankHT <:+ c :: cs :=
          (List.dropWhile_suffix isBlankHT).trans (List.suffix_cons c cs)
        rcases List.suffix_cons_iff.mp ht with rfl | ht2
        · have hSp : isPythonSpace ' ' = true := by decide
          rw [List.takeWhile_cons_of_pos hSp]
          have h1 := count_nl_W_le (cs.dropWhile isBlankHT)
          have h2 := hz _ hsuf
          simp only [List.count_cons]
          split
          · rename_i hbe
            exact absurd hbe (by decide)
          · omega
        · exact ih _ (by omega) (goodNl_suffix_closed hsuf hz) t ht2
      · rw [if_neg hc] at ht
        rcases List.suffix_cons_iff.mp ht with rfl | ht2
        · by_cases hSc : isPythonSpace c = true
          · rw [List.takeWhile_cons_of_pos hSc]
            have h1 := count_nl_W_le cs
            have h2 := hz (c :: cs) (List.suffix_refl _)
            rw [List.takeWhile_cons_of_pos hSc] at h2
            simp only [List.count_cons] at h2 ⊢
            split at h2 <;> rename_i hbe
            · rw [if_pos hbe]
              omega
            · rw [if_neg hbe]
              omega
          · rw [List.takeWhile_cons_of_neg (by simp [hSc])]
            simp
        · exact ih cs (by omega) (goodNl_suffix_closed (List.suffix_cons c cs) hz) t ht2

/-- Appending to the right never decreases the newline count of the
leading whitespace run. -/
theorem count_nl_takeWhile_append_le (t d : List Char) :
    ((t.takeWhile isPythonSpace).count '\n') ≤
      (((t ++ d).takeWhile isPythonSpace).count '\n') := by
  induction t with
  | nil => simp
  | cons c cs ih =>
    by_cases hc : isPythonSpace c = true
    · rw [List.takeWhile_cons_of_pos hc, List.cons_append,
        List.takeWhile_cons_of_pos hc]
      simp only [List.count_cons]
      split <;> omega
    · rw [List.takeWhile_cons_of_neg (by simp [hc]), List.cons_append,
        List.takeWhile_cons_of_neg (by simp [hc])]

/-- Decomposition of `rstrip`: the input is the kept part followed by a
whitespace tail. -/
theorem rstrip_decomp (z : List Char) :
    z = rstrip z ++ (z.reverse.takeWhile isPythonSpace).reverse ∧
    ∀ a ∈ (z.reverse.takeWhile isPythonSpace).reverse, isPythonSpace a = true := by
  constructor
  · conv_lhs => rw [← List.reverse_reverse z,
      ← List.takeWhile_append_dropWhile (p := isPythonSpace) (l := z.reverse)]
    rw [List.reverse_append]
    rfl
  · intro a ha
    exact List.mem_takeWhile_imp (List.mem_reverse.mp ha)

theorem rstrip_isPrefixOf (z : List Char) : rstrip z <+: z :=
  ⟨(z.reverse.takeWhile isPythonSpace).reverse, ((rstrip_decomp z).1).symm⟩

/-- `rstrip` preserves `GoodNl`. -/
theorem goodNl_rstrip (z : List Char) (h : GoodNl z) : GoodNl (rstrip z) := by
  intro t ht
  obtain ⟨hdec, -⟩ := rstrip_decomp z
  rcases ht with ⟨a, ha⟩
  have hsuf : t ++ (z.reverse.takeWhile isPythonSpace).reverse <:+ z := by
    refine ⟨a, ?_⟩
    conv_rhs => rw [hdec]
    rw [← ha, List.append_assoc]
  have h1 := count_nl_takeWhile_append_le t (z.reverse.takeWhile isPythonSpace).reverse
  have h2 := h _ hsuf
  omega

/-- `rstrip` preserves `NoTwoSpaces`. -/
theorem noTwoSpaces_rstrip (z : List Char) (h : NoTwoSpaces z) :
    NoTwoSpaces (rstrip z) := by
  intro t ht hpre
  obtain ⟨hdec, -⟩ := rstrip_decomp z
  rcases ht with ⟨a, ha⟩
  have hsuf : t ++ (z.reverse.takeWhile isPythonSpace).reverse <:+ z := by
    refine ⟨a, ?_⟩
    conv_rhs => rw [hdec]
    rw [← ha, List.append_assoc]
  exact h _ hsuf (hpre.trans ⟨_, rfl⟩)

/-- Members of `rstrip` come from the input. -/
theorem mem_rstrip {a : Char} (z : List Char) (h : a ∈ rstrip z) : a ∈ z := by
  obtain ⟨hdec, -⟩ := rstrip_decomp z
  rw [hdec]
  exact List.mem_append_left _ h

/-- If every head is non-whitespace, `dropWhile` is the identity. -/
theorem dropWhile_eq_self_of_head (p : Char → Bool) (z : List Char)
    (h : ∀ a, z.head? = some a → p a = false) : z.dropWhile p = z := by
  cases z with
  | nil => rfl
  | cons c cs =>
    have := h c rfl
    simp [List.dropWhile_cons, this]

/-- A non-empty prefix shares the head. -/
theorem prefix_head? {l₁ l₂ : List Char} {a : Char} (h : l₁ <+: l₂)
    (ha : l₁.head? = some a) : l₂.head? = some a := by
  rcases h with ⟨t, rfl⟩
  cases l₁ with
  | nil => cases ha
  | cons c cs => simpa using ha

/-- The head of the stripped text is never whitespace. -/
theorem pyStrip_head?_not_space (l : List Char) {a : Char}
    (h : (pyStrip l).head? = some a) : isPythonSpace a = false := by
  have h1 : (l.dropWhile isPythonSpace).head? = some a :=
    prefix_head? (rstrip_isPrefixOf _) h
  exact head?_dropWhile_false _ _ h1

/-- The last character of an `rstrip` is never whitespace. -/
theorem rstrip_getLast?_not_space (z : List Char) {a : Char}
    (h : (rstrip z).getLast? = some a) : isPythonSpace a = false := by
  unfold rstrip at h
  rw [List.getLast?_reverse] at h
  exact head?_dropWhile_false _ _ h

/-- The last character of the stripped text is never whitespace. -/
theorem pyStrip_getLast?_not_space (l : List Char) {a : Char}
    (h : (pyStrip l).getLast? = some a) : isPythonSpace a = false :=
  rstrip_getLast?_not_space _ h

/-- `rstrip` is the identity when the last character is not whitespace. -/
theorem rstrip_eq_self (z : List Char)
    (h : ∀ a, z.getLast? = some a → isPythonSpace a = false) : rstrip z = z := by
  unfold rstrip
  rw [dropWhile_eq_self_of_head isPythonSpace z.reverse
    (fun a ha => h a (by rwa [List.head?_reverse] at ha)), List.reverse_reverse]

/-- `pyStrip` is the identity on already-stripped text. -/
theorem pyStrip_eq_self (z : List Char)
    (hh : ∀ a, z.head? = some a → isPythonSpace a = false)
    (hl : ∀ a, z.getLast? = some a → isPythonSpace a = false) : pyStrip z = z := by
  unfold pyStrip
  rw [dropWhile_eq_self_of_head isPythonSpace z hh, rstrip_eq_self z hl]

/-- `pyStrip` is idempotent. -/
theorem pyStrip_idem (l : List Char) : pyStrip (pyStrip l) = pyStrip l :=
  pyStrip_eq_self _ (fun _ ha => pyStrip_head?_not_space l ha)
    (fun _ ha => pyStrip_getLast?_not_space l ha)

/-- The core of idempotence: one more pass of the whole pipeline over an
already-cleaned character list is the identity. -/
theorem deepCleanList_idem (l : List Char) :
    deepCleanList (deepCleanList l) = deepCleanList l := by
  have hGood : GoodNl (deepCleanList l) :=
    goodNl_rstrip _ (goodNl_suffix_closed (List.dropWhile_suffix _)
      (goodNl_collapseSpaces _ (goodNl_B _)))
  have hTab : NoTab (deepCleanList l) := by
    intro a ha
    exact noTab_collapseSpaces (collapseBlankLines (l.filter allowedChar)) a
      ((List.dropWhile_sublist _).mem (mem_rstrip _ ha))
  have hSS : NoTwoSpaces (deepCleanList l) :=
    noTwoSpaces_rstrip _ (noTwoSpaces_suffix_closed (List.dropWhile_suffix _)
      (noTwoSpaces_collapseSpaces _))
  have hAll : ∀ a ∈ deepCleanList l, allowedChar a = true := by
    intro a ha
    have h1 : a ∈ collapseSpaces (collapseBlankLines (l.filter allowedChar)) :=
      (List.dropWhile_sublist _).mem (mem_rstrip _ ha)
    rcases mem_collapseSpaces _ h1 with h2 | rfl
    · rcases mem_collapseBlankLines _ h2 with h3 | rfl
      · exact (List.mem_filter.mp h3).2
      · decide
    · decide
  conv_lhs => rw [deepCleanList]
  rw [List.filter_eq_self.mpr hAll, collapseBlankLines_eq_self _ hGood,
    collapseSpaces_eq_self _ hTab hSS]
  exact pyStrip_idem _

/-- C7: the sanitizer is idempotent — `prepare_user_input_for_ai`
(equivalently `deep_clean_text`, since the serialization check never
fails) applied to its own output is a no-op: the allow-list filter,
blank-line collapse, horizontal-whitespace collapse and trim leave an
already-sanitized string unchanged. -/
theorem sanitizer_idempotent (x : String) :
    prepare_user_input_for_ai (prepare_user_input_for_ai x) =
      prepare_user_input_for_ai x := by
  unfold prepare_user_input_for_ai deep_clean_text
  by_cases h : x.data.isEmpty
  · rw [if_pos h]
    rfl
  · rw [if_neg h]
    by_cases h2 : (deepCleanList x.data).isEmpty
    · rw [if_pos (by simpa using h2)]
      obtain hnil : deepCleanList x.data = [] := by simpa using h2
      rw [hnil]
    · rw [if_neg (by simpa using h2)]
      show String.mk (deepCleanList (deepCleanList x.data)) = _
      rw [deepCleanList_idem]
